import Mathlib

/-!
Verification development for the `serp-traits` auction module
(`src/auction.rs`).

The crate declares the data types (`AuctionInfo`, `OnNewBidResult`) and two
traits (`Auction`, `AuctionHandler`); the `Change` type is imported from the
crate root, which is not part of the sources here.  The registry and handler
operations are trait methods with no implementation in the crate, so their
behaviour is modelled from the specification, as noted on each definition.
Value-type parameters (`AccountId`, `CurrencyId`, `Balance`, `BlockNumber`,
`AuctionId`) are opaque comparable types; the model instantiates ids and
times with `Nat`.
-/

/-- Modelled from the spec: the `Change` type lives at the crate root (only
`use crate::Change;` appears in `src/auction.rs`).  Per the spec it is an
explicit two-case tagged sum: `NoChange` (leave unchanged) versus
`NewValue v` (explicitly set to `v`), not collapsible into a plain optional. -/
inductive Change (T : Type) where
  | NoChange : Change T
  | NewValue : T → Change T
deriving DecidableEq

/-- The `AuctionInfo` struct from `src/auction.rs`: the canonical auction
record.  The Rust field `end` is a Lean keyword, rendered `end_`. -/
structure AuctionInfo (Account Currency Balance Time : Type) where
  bid : Option (Account × Currency × Balance)
  accepts : Option Currency
  dispenses : Option Currency
  start : Time
  end_ : Option Time
deriving DecidableEq

/-- The `OnNewBidResult` struct from `src/auction.rs`: the handler's
decision for one bid evaluation. -/
structure OnNewBidResult (Time : Type) where
  accept_bid : Bool
  auction_end_change : Change (Option Time)
deriving DecidableEq

/-- The two error kinds of the registry contract (`DispatchError` values in
the Rust signatures; the spec fixes the taxonomy to these two). -/
inductive AuctionError where
  | NotFound : AuctionError
  | IdsExhausted : AuctionError
deriving DecidableEq

/-- Modelled from the spec: the registry state backing the `Auction` trait.
`auctions` is the record store keyed by auction id, `nextId` the id counter,
`maxId` the well-defined maximum of the bounded `AuctionId` type. -/
structure Registry (Account Currency Balance Time : Type) where
  auctions : List (Nat × AuctionInfo Account Currency Balance Time)
  nextId : Nat
  maxId : Nat

variable {Account Currency Balance Time : Type}

/-- Modelled from the spec: `auction_info(id)` returns the record if `id`
exists, the empty variant otherwise; no side effects. -/
def auction_info (st : Registry Account Currency Balance Time) (id : Nat) :
    Option (AuctionInfo Account Currency Balance Time) :=
  (st.auctions.find? (fun p => p.1 == id)).map (fun p => p.2)

/-- Modelled from the spec: `update_auction(id, info)` replaces the stored
record for `id`, failing with `NotFound` (and writing nothing) when `id`
does not exist.  The returned pair is (dispatch result, resulting state). -/
def update_auction (st : Registry Account Currency Balance Time) (id : Nat)
    (info : AuctionInfo Account Currency Balance Time) :
    Except AuctionError Unit × Registry Account Currency Balance Time :=
  if (st.auctions.find? (fun p => p.1 == id)).isSome then
    (Except.ok (),
      { st with auctions :=
          st.auctions.map (fun p => if p.1 == id then (id, info) else p) })
  else
    (Except.error AuctionError.NotFound, st)

/-- Modelled from the spec: `new_auction(start, end, accepts, dispenses)`
allocates a fresh id, stores a record with `bid = None` and the given
fields, and returns the id; it fails with `IdsExhausted` (and writes
nothing) when the next id would overflow the bounded id type. -/
def new_auction (st : Registry Account Currency Balance Time) (start : Time)
    (end_ : Option Time) (accepts dispenses : Option Currency) :
    Except AuctionError Nat × Registry Account Currency Balance Time :=
  if st.nextId ≤ st.maxId then
    (Except.ok st.nextId,
      { st with
          auctions := (st.nextId, ⟨none, accepts, dispenses, start, end_⟩) :: st.auctions,
          nextId := st.nextId + 1 })
  else
    (Except.error AuctionError.IdsExhausted, st)

/-- Modelled from the spec: `remove_auction(id)` deletes the record for `id`
if present and is a no-op otherwise; it never fails. -/
def remove_auction (st : Registry Account Currency Balance Time) (id : Nat) :
    Registry Account Currency Balance Time :=
  { st with auctions := st.auctions.filter (fun p => p.1 != id) }

/-- Modelled from the spec: the configuration of the handler's
implementation-defined policy — the anti-snipe `window` and the auction's
accepted currency `accepts`, which the implementer reads from the
registry record.  Ids, currencies, accounts, amounts and times are `Nat`. -/
structure HandlerConfig where
  window : Nat
  accepts : Option Nat

/-- The argument tuple of `AuctionHandler::on_new_bid` from
`src/auction.rs`: current time, auction id, bid currency, proposed bid
triple (bidder, currency, amount), previous bid if any. -/
structure BidInput where
  now : Nat
  id : Nat
  currency_id : Nat
  new_bid : Nat × Nat × Nat
  last_bid : Option (Nat × Nat × Nat)

/-- Modelled from the spec: the acceptance policy — the bid currency must
match the auction's accepted currency when one is set, and the amount must
be strictly greater than the last bid's amount (a first bid needs only the
currency check).  An unknown/mismatched currency resolves to rejection,
never to an error. -/
def acceptable (cfg : HandlerConfig) (inp : BidInput) : Bool :=
  (match cfg.accepts with
    | none => true
    | some c => inp.currency_id == c) &&
  (match inp.last_bid with
    | none => true
    | some lb => lb.2.2 < inp.new_bid.2.2)

/-- Modelled from the spec: `AuctionHandler::on_new_bid` has no body in the
crate (trait method); the spec fixes its contract — a deterministic
decision whether to accept the bid, plus an anti-snipe end-time change:
when the bid is accepted and `now` is within `window` of the present end
`e` (that is `e < now + window`), the end moves to `NewValue (some (now +
window))`, strictly later than `e`; otherwise `NoChange`.  `end_` is the
auction's current end time, read by the implementer from the registry. -/
def on_new_bid (cfg : HandlerConfig) (inp : BidInput) (end_ : Option Nat) :
    OnNewBidResult Nat :=
  let acc := acceptable cfg inp
  { accept_bid := acc,
    auction_end_change :=
      if acc then
        match end_ with
        | some e =>
            if e < inp.now + cfg.window then
              Change.NewValue (some (inp.now + cfg.window))
            else Change.NoChange
        | none => Change.NoChange
      else Change.NoChange }

/-- Modelled from the spec: `AuctionHandler::on_auction_ended` returns unit;
settlement is delegated to the caller's fund-custody collaborator. -/
def on_auction_ended (id : Nat) (winner : Option (Nat × Nat × Nat)) : Unit :=
  let _ := id
  let _ := winner
  ()

/-- The caller applies a `Change` to the stored end time: `NoChange` leaves
it as is, `NewValue v` overwrites it with `v`. -/
def applyChange (c : Change (Option Nat)) (e : Option Nat) : Option Nat :=
  match c with
  | Change.NoChange => e
  | Change.NewValue v => v

/-- One caller step on the end time: evaluate `on_new_bid` and, exactly when
the bid was accepted, apply the returned `auction_end_change`. -/
def stepEnd (cfg : HandlerConfig) (inp : BidInput) (e : Option Nat) : Option Nat :=
  let r := on_new_bid cfg inp e
  if r.accept_bid then applyChange r.auction_end_change e else e

/-- The end time after the caller processes a sequence of bids in order. -/
def runEnds (cfg : HandlerConfig) (inps : List BidInput) (e : Option Nat) : Option Nat :=
  match inps with
  | [] => e
  | i :: is => runEnds cfg is (stepEnd cfg i e)

/-- A sequence of `new_auction` calls threaded through the registry state,
collecting the ids of the successful calls in order. -/
def runNewAuctions (st : Registry Account Currency Balance Time) :
    List (Time × Option Time × Option Currency × Option Currency) →
    List Nat × Registry Account Currency Balance Time
  | [] => ([], st)
  | p :: ps =>
    match new_auction st p.1 p.2.1 p.2.2.1 p.2.2.2 with
    | (Except.ok id, st1) =>
      let r := runNewAuctions st1 ps
      (id :: r.1, r.2)
    | (Except.error _, st1) => runNewAuctions st1 ps

/-- SCALE encoding of an `Option`, per the derived `Encode`: a `0x00` byte
for `None`, a `0x01` byte followed by the payload for `Some`. -/
def encodeOption (encT : T → List Nat) : Option T → List Nat
  | none => [0]
  | some v => 1 :: encT v

/-- SCALE decoding of an `Option`, per the derived `Decode`: inverse of
`encodeOption`, consuming from a byte stream and returning the rest. -/
def decodeOption (decT : List Nat → Option (T × List Nat)) :
    List Nat → Option (Option T × List Nat)
  | [] => none
  | b :: rest =>
    if b == 0 then some (none, rest)
    else if b == 1 then
      match decT rest with
      | none => none
      | some (v, r) => some (some v, r)
    else none

/-- SCALE encoding of a triple, per the derived `Encode` on tuples: the
concatenation of the component encodings. -/
def encodeTriple (encA : Account → List Nat) (encC : Currency → List Nat)
    (encB : Balance → List Nat) (t : Account × Currency × Balance) : List Nat :=
  encA t.1 ++ encC t.2.1 ++ encB t.2.2

/-- SCALE decoding of a triple: the components in order, each consuming its
bytes from the stream. -/
def decodeTriple (decA : List Nat → Option (Account × List Nat))
    (decC : List Nat → Option (Currency × List Nat))
    (decB : List Nat → Option (Balance × List Nat)) (bs : List Nat) :
    Option ((Account × Currency × Balance) × List Nat) :=
  match decA bs with
  | none => none
  | some (a, bs1) =>
    match decC bs1 with
    | none => none
    | some (c, bs2) =>
      match decB bs2 with
      | none => none
      | some (b, bs3) => some ((a, c, b), bs3)

/-- SCALE encoding of `AuctionInfo`, per the derived `Encode`: the fields
encoded in declaration order — `bid`, `accepts`, `dispenses`, `start`,
`end` — and concatenated. -/
def encodeAuctionInfo (encA : Account → List Nat) (encC : Currency → List Nat)
    (encB : Balance → List Nat) (encT : Time → List Nat)
    (info : AuctionInfo Account Currency Balance Time) : List Nat :=
  encodeOption (encodeTriple encA encC encB) info.bid ++
  encodeOption encC info.accepts ++
  encodeOption encC info.dispenses ++
  encT info.start ++
  encodeOption encT info.end_

/-- SCALE decoding of `AuctionInfo`, per the derived `Decode`: the fields
decoded in declaration order from the byte stream. -/
def decodeAuctionInfo (decA : List Nat → Option (Account × List Nat))
    (decC : List Nat → Option (Currency × List Nat))
    (decB : List Nat → Option (Balance × List Nat))
    (decT : List Nat → Option (Time × List Nat)) (bs : List Nat) :
    Option (AuctionInfo Account Currency Balance Time × List Nat) :=
  match decodeOption (decodeTriple decA decC decB) bs with
  | none => none
  | some (bid, bs1) =>
    match decodeOption decC bs1 with
    | none => none
    | some (acc, bs2) =>
      match decodeOption decC bs2 with
      | none => none
      | some (dis, bs3) =>
        match decT bs3 with
        | none => none
        | some (st, bs4) =>
          match decodeOption decT bs4 with
          | none => none
          | some (en, bs5) => some (⟨bid, acc, dis, st, en⟩, bs5)

/-- A one-byte-per-value codec on `Nat`, used to instantiate the component
codecs on concrete inputs. -/
def encNat (n : Nat) : List Nat := [n]

/-- Decoder matching `encNat`. -/
def decNat : List Nat → Option (Nat × List Nat)
  | [] => none
  | b :: rest => some (b, rest)

/-- Fresh creation: a successful `new_auction` stores exactly the supplied
record with no bid. -/
theorem new_auction_stores (st : Registry Account Currency Balance Time)
    (s : Time) (e : Option Time) (a d : Option Currency) (id : Nat)
    (st1 : Registry Account Currency Balance Time)
    (h : new_auction st s e a d = (Except.ok id, st1)) :
    auction_info st1 id = some ⟨none, a, d, s, e⟩ := by
  unfold new_auction at h
  by_cases hle : st.nextId ≤ st.maxId
  · simp only [if_pos hle, Prod.mk.injEq, Except.ok.injEq] at h
    obtain ⟨hid, hst⟩ := h
    subst hst
    subst hid
    simp [auction_info]
  · simp [if_neg hle] at h

/-- Witness for `new_auction_stores` at a concrete registry. -/
theorem new_auction_stores_witness :
    auction_info
      (new_auction (⟨[], 0, 10⟩ : Registry Nat Nat Nat Nat) 5 (some 9) (some 1) (some 2)).2 0 =
      some ⟨none, some 1, some 2, 5, some 9⟩ :=
  new_auction_stores ⟨[], 0, 10⟩ 5 (some 9) (some 1) (some 2) 0 _ rfl

/-- Pure failure: `update_auction` on an id with no record returns
`NotFound`, leaves the registry untouched, and a later `auction_info` on
that id still yields the empty variant. -/
theorem update_auction_missing (st : Registry Account Currency Balance Time)
    (id : Nat) (info : AuctionInfo Account Currency Balance Time)
    (h : auction_info st id = none) :
    (update_auction st id info).1 = Except.error AuctionError.NotFound ∧
    (update_auction st id info).2 = st ∧
    auction_info (update_auction st id info).2 id = none := by
  unfold auction_info at h
  have hfind : st.auctions.find? (fun p => p.1 == id) = none := by
    cases hf : st.auctions.find? (fun p => p.1 == id) with
    | none => rfl
    | some p => rw [hf] at h; simp at h
  refine ⟨?_, ?_, ?_⟩
  · unfold update_auction
    rw [hfind]
    simp
  · unfold update_auction
    rw [hfind]
    simp
  · unfold update_auction
    rw [hfind]
    simp [auction_info, hfind]

/-- Witness for `update_auction_missing` at a concrete empty registry. -/
theorem update_auction_missing_witness :
    (update_auction (⟨[], 0, 10⟩ : Registry Nat Nat Nat Nat) 3
        ⟨none, none, none, 0, none⟩).1 = Except.error AuctionError.NotFound ∧
    (update_auction (⟨[], 0, 10⟩ : Registry Nat Nat Nat Nat) 3
        ⟨none, none, none, 0, none⟩).2 = ⟨[], 0, 10⟩ ∧
    auction_info
      (update_auction (⟨[], 0, 10⟩ : Registry Nat Nat Nat Nat) 3
        ⟨none, none, none, 0, none⟩).2 3 = none :=
  update_auction_missing ⟨[], 0, 10⟩ 3 ⟨none, none, none, 0, none⟩ rfl

/-- Exhaustion: `new_auction` fails with `IdsExhausted` exactly when the
next id exceeds the maximum of the bounded id type. -/
theorem new_auction_exhausted_iff (st : Registry Account Currency Balance Time)
    (s : Time) (e : Option Time) (a d : Option Currency) :
    (new_auction st s e a d).1 = Except.error AuctionError.IdsExhausted ↔
      st.maxId < st.nextId := by
  unfold new_auction
  by_cases hle : st.nextId ≤ st.maxId
  · rw [if_pos hle]
    simp
    omega
  · rw [if_neg hle]
    simp
    omega

/-- Witness for `new_auction_exhausted_iff` at a saturated registry. -/
theorem new_auction_exhausted_iff_witness :
    (new_auction (⟨[], 11, 10⟩ : Registry Nat Nat Nat Nat) 0 none none none).1 =
      Except.error AuctionError.IdsExhausted :=
  (new_auction_exhausted_iff ⟨[], 11, 10⟩ 0 none none none).mpr (by decide)

/-- Removal: `remove_auction` always succeeds, a following `auction_info`
on the same id yields the empty variant, and removal is idempotent. -/
theorem remove_auction_clears (st : Registry Account Currency Balance Time) (id : Nat) :
    auction_info (remove_auction st id) id = none ∧
    remove_auction (remove_auction st id) id = remove_auction st id := by
  constructor
  · unfold auction_info remove_auction
    simp [List.find?_eq_none, List.mem_filter]
  · unfold remove_auction
    simp [List.filter_filter]

/-- Every id returned along a run of `new_auction` calls is at least the
starting id counter. -/
theorem runNewAuctions_ids_ge
    (ps : List (Time × Option Time × Option Currency × Option Currency))
    (st : Registry Account Currency Balance Time) :
    ∀ id ∈ (runNewAuctions st ps).1, st.nextId ≤ id := by
  induction ps generalizing st with
  | nil => intro id hid; simp [runNewAuctions] at hid
  | cons p ps ih =>
    intro id hid
    by_cases hle : st.nextId ≤ st.maxId
    · simp [runNewAuctions, new_auction, hle] at hid
      rcases hid with h1 | h2
      · omega
      · have hgt := ih _ id h2
        simp at hgt
        omega
    · simp [runNewAuctions, new_auction, hle] at hid
      exact ih st id hid

/-- The ids returned along a run of `new_auction` calls are strictly
increasing in order of allocation. -/
theorem runNewAuctions_ids_sorted
    (ps : List (Time × Option Time × Option Currency × Option Currency))
    (st : Registry Account Currency Balance Time) :
    ((runNewAuctions st ps).1).Pairwise (fun a b => a < b) := by
  induction ps generalizing st with
  | nil => simp [runNewAuctions]
  | cons p ps ih =>
    by_cases hle : st.nextId ≤ st.maxId
    · simp only [runNewAuctions, new_auction, if_pos hle]
      refine List.pairwise_cons.mpr ⟨?_, ih _⟩
      intro b hb
      have hmem := runNewAuctions_ids_ge ps _ b hb
      simp at hmem
      omega
    · simp only [runNewAuctions, new_auction, if_neg hle]
      exact ih st

/-- Distinct ids: all ids returned by successful `new_auction` calls in any
sequence are pairwise distinct. -/
theorem new_auction_ids_distinct
    (st : Registry Account Currency Balance Time)
    (ps : List (Time × Option Time × Option Currency × Option Currency)) :
    ((runNewAuctions st ps).1).Nodup :=
  (runNewAuctions_ids_sorted ps st).imp (fun h => Nat.ne_of_lt h)

/-- A single accepted bid can only keep or extend a present end time. -/
theorem stepEnd_mono (cfg : HandlerConfig) (inp : BidInput) (t : Nat) :
    ∃ u, stepEnd cfg inp (some t) = some u ∧ t ≤ u := by
  by_cases hacc : acceptable cfg inp = true
  · by_cases hw : t < inp.now + cfg.window
    · refine ⟨inp.now + cfg.window, ?_, Nat.le_of_lt hw⟩
      simp [stepEnd, on_new_bid, applyChange, hacc, hw]
    · refine ⟨t, ?_, Nat.le_refl t⟩
      simp [stepEnd, on_new_bid, applyChange, hacc, hw]
  · refine ⟨t, ?_, Nat.le_refl t⟩
    simp [stepEnd, on_new_bid, applyChange, hacc]

/-- Over any bid sequence, a present end time stays present and never
decreases. -/
theorem runEnds_mono (cfg : HandlerConfig) (inps : List BidInput) (t : Nat) :
    ∃ u, runEnds cfg inps (some t) = some u ∧ t ≤ u := by
  induction inps generalizing t with
  | nil => exact ⟨t, rfl, Nat.le_refl t⟩
  | cons i is ih =>
    obtain ⟨u, hu, htu⟩ := stepEnd_mono cfg i t
    obtain ⟨v, hv, huv⟩ := ih u
    refine ⟨v, ?_, Nat.le_trans htu huv⟩
    simp only [runEnds]
    rw [hu]
    exact hv

/-- Monotone end time: each caller-applied update from an accepted bid
keeps or extends a present end time, and along every reachable sequence of
bids the end time never decreases. -/
theorem auction_end_never_decreases (cfg : HandlerConfig) (inps : List BidInput) (t : Nat) :
    (∀ inp : BidInput, ∃ u, stepEnd cfg inp (some t) = some u ∧ t ≤ u) ∧
    (∃ u, runEnds cfg inps (some t) = some u ∧ t ≤ u) :=
  ⟨fun inp => stepEnd_mono cfg inp t, runEnds_mono cfg inps t⟩

/-- Determinism: two `on_new_bid` invocations agreeing on now, id,
currency, new bid and last bid return the same decision in both fields. -/
theorem on_new_bid_deterministic (cfg : HandlerConfig) (e : Option Nat) (i j : BidInput)
    (hnow : i.now = j.now) (hid : i.id = j.id) (hcur : i.currency_id = j.currency_id)
    (hnew : i.new_bid = j.new_bid) (hlast : i.last_bid = j.last_bid) :
    (on_new_bid cfg i e).accept_bid = (on_new_bid cfg j e).accept_bid ∧
    (on_new_bid cfg i e).auction_end_change = (on_new_bid cfg j e).auction_end_change := by
  obtain ⟨inow, iid, icur, inew, ilast⟩ := i
  obtain ⟨jnow, jid, jcur, jnew, jlast⟩ := j
  simp only at hnow hid hcur hnew hlast
  subst hnow
  subst hid
  subst hcur
  subst hnew
  subst hlast
  exact ⟨rfl, rfl⟩

/-- Witness for `on_new_bid_deterministic` at a concrete input. -/
theorem on_new_bid_deterministic_witness :
    (on_new_bid ⟨5, some 1⟩ ⟨98, 7, 1, (2, 1, 150), some (3, 1, 100)⟩ (some 100)).accept_bid =
      (on_new_bid ⟨5, some 1⟩ ⟨98, 7, 1, (2, 1, 150), some (3, 1, 100)⟩ (some 100)).accept_bid ∧
    (on_new_bid ⟨5, some 1⟩ ⟨98, 7, 1, (2, 1, 150), some (3, 1, 100)⟩ (some 100)).auction_end_change =
      (on_new_bid ⟨5, some 1⟩ ⟨98, 7, 1, (2, 1, 150), some (3, 1, 100)⟩ (some 100)).auction_end_change :=
  on_new_bid_deterministic ⟨5, some 1⟩ (some 100)
    ⟨98, 7, 1, (2, 1, 150), some (3, 1, 100)⟩ ⟨98, 7, 1, (2, 1, 150), some (3, 1, 100)⟩
    rfl rfl rfl rfl rfl

/-- Tagged sum: `Change` keeps `NoChange` apart from `NewValue none`, every
value is exactly one of the two cases, and both cases occur as
`auction_end_change` outputs of `on_new_bid`. -/
theorem change_tagged_sum_distinct :
    (∀ v : Option Nat, (Change.NoChange : Change (Option Nat)) ≠ Change.NewValue v) ∧
    (∀ c : Change (Option Nat), c = Change.NoChange ∨ ∃ v, c = Change.NewValue v) ∧
    (∃ cfg inp e, (on_new_bid cfg inp e).auction_end_change = Change.NoChange) ∧
    (∃ cfg inp e v, (on_new_bid cfg inp e).auction_end_change = Change.NewValue (some v)) := by
  refine ⟨?_, ?_, ?_, ?_⟩
  · intro v h
    exact Change.noConfusion h
  · intro c
    cases c with
    | NoChange => exact Or.inl rfl
    | NewValue v => exact Or.inr ⟨v, rfl⟩
  · exact ⟨⟨0, none⟩, ⟨0, 0, 0, (0, 0, 0), some (0, 0, 1)⟩, none, rfl⟩
  · exact ⟨⟨5, none⟩, ⟨98, 0, 0, (0, 0, 0), none⟩, some 100, 103, rfl⟩

/-- Witness for `change_tagged_sum_distinct` at the concrete value `none`. -/
theorem change_tagged_sum_distinct_witness :
    (Change.NoChange : Change (Option Nat)) ≠ Change.NewValue none :=
  change_tagged_sum_distinct.1 none

/-- Totality: `on_auction_ended` returns unit on every input, `on_new_bid`
always returns a boolean decision, and a mismatched currency resolves to
rejection rather than an error. -/
theorem handlers_never_fail (cfg : HandlerConfig) (inp : BidInput) (e : Option Nat)
    (id : Nat) (w : Option (Nat × Nat × Nat)) (c : Nat) :
    on_auction_ended id w = () ∧
    ((on_new_bid cfg inp e).accept_bid = true ∨ (on_new_bid cfg inp e).accept_bid = false) ∧
    (cfg.accepts = some c → inp.currency_id ≠ c → (on_new_bid cfg inp e).accept_bid = false) := by
  refine ⟨rfl, ?_, ?_⟩
  · cases hb : (on_new_bid cfg inp e).accept_bid
    · exact Or.inr rfl
    · exact Or.inl rfl
  · intro hacc hne
    simp [on_new_bid, acceptable, hacc, hne]

/-- Witness for `handlers_never_fail` at a concrete mismatched currency. -/
theorem handlers_never_fail_witness :
    on_auction_ended 0 none = () ∧
    ((on_new_bid ⟨0, some 7⟩ ⟨0, 0, 3, (0, 0, 1), none⟩ none).accept_bid = true ∨
      (on_new_bid ⟨0, some 7⟩ ⟨0, 0, 3, (0, 0, 1), none⟩ none).accept_bid = false) ∧
    (on_new_bid ⟨0, some 7⟩ ⟨0, 0, 3, (0, 0, 1), none⟩ none).accept_bid = false :=
  ⟨(handlers_never_fail ⟨0, some 7⟩ ⟨0, 0, 3, (0, 0, 1), none⟩ none 0 none 7).1,
   (handlers_never_fail ⟨0, some 7⟩ ⟨0, 0, 3, (0, 0, 1), none⟩ none 0 none 7).2.1,
   (handlers_never_fail ⟨0, some 7⟩ ⟨0, 0, 3, (0, 0, 1), none⟩ none 0 none 7).2.2 rfl (by decide)⟩

/-- The option codec is a stream round-trip whenever the payload codec is. -/
theorem decodeOption_roundtrip {T : Type} (encT : T → List Nat)
    (decT : List Nat → Option (T × List Nat))
    (hT : ∀ t rest, decT (encT t ++ rest) = some (t, rest)) :
    ∀ o rest, decodeOption decT (encodeOption encT o ++ rest) = some (o, rest) := by
  intro o rest
  cases o with
  | none => simp [encodeOption, decodeOption]
  | some v => simp [encodeOption, decodeOption, hT]

/-- The triple codec is a stream round-trip whenever its component codecs
are. -/
theorem decodeTriple_roundtrip
    (encA : Account → List Nat) (decA : List Nat → Option (Account × List Nat))
    (encC : Currency → List Nat) (decC : List Nat → Option (Currency × List Nat))
    (encB : Balance → List Nat) (decB : List Nat → Option (Balance × List Nat))
    (hA : ∀ a rest, decA (encA a ++ rest) = some (a, rest))
    (hC : ∀ c rest, decC (encC c ++ rest) = some (c, rest))
    (hB : ∀ b rest, decB (encB b ++ rest) = some (b, rest)) :
    ∀ t rest,
      decodeTriple decA decC decB (encodeTriple encA encC encB t ++ rest) = some (t, rest) := by
  intro t rest
  obtain ⟨a, c, b⟩ := t
  simp [encodeTriple, decodeTriple, List.append_assoc, hA, hC, hB]

/-- Stream round-trip for the whole `AuctionInfo` record. -/
theorem decodeAuctionInfo_roundtrip_aux
    (encA : Account → List Nat) (decA : List Nat → Option (Account × List Nat))
    (encC : Currency → List Nat) (decC : List Nat → Option (Currency × List Nat))
    (encB : Balance → List Nat) (decB : List Nat → Option (Balance × List Nat))
    (encT : Time → List Nat) (decT : List Nat → Option (Time × List Nat))
    (hA : ∀ a rest, decA (encA a ++ rest) = some (a, rest))
    (hC : ∀ c rest, decC (encC c ++ rest) = some (c, rest))
    (hB : ∀ b rest, decB (encB b ++ rest) = some (b, rest))
    (hT : ∀ t rest, decT (encT t ++ rest) = some (t, rest))
    (info : AuctionInfo Account Currency Balance Time) (rest : List Nat) :
    decodeAuctionInfo decA decC decB decT
        (encodeAuctionInfo encA encC encB encT info ++ rest) = some (info, rest) := by
  obtain ⟨bid, acc, dis, st, en⟩ := info
  have h1 := decodeOption_roundtrip (encodeTriple encA encC encB) (decodeTriple decA decC decB)
    (decodeTriple_roundtrip encA decA encC decC encB decB hA hC hB)
  have h2 := decodeOption_roundtrip encC decC hC
  have h4 := decodeOption_roundtrip encT decT hT
  simp [encodeAuctionInfo, decodeAuctionInfo, List.append_assoc, h1, h2, hT, h4]

/-- SCALE round-trip: decoding the encoding of any `AuctionInfo` record,
over any component codecs that themselves round-trip, returns exactly the
original record with no bytes left over. -/
theorem auctionInfo_scale_roundtrip
    (encA : Account → List Nat) (decA : List Nat → Option (Account × List Nat))
    (encC : Currency → List Nat) (decC : List Nat → Option (Currency × List Nat))
    (encB : Balance → List Nat) (decB : List Nat → Option (Balance × List Nat))
    (encT : Time → List Nat) (decT : List Nat → Option (Time × List Nat))
    (hA : ∀ a rest, decA (encA a ++ rest) = some (a, rest))
    (hC : ∀ c rest, decC (encC c ++ rest) = some (c, rest))
    (hB : ∀ b rest, decB (encB b ++ rest) = some (b, rest))
    (hT : ∀ t rest, decT (encT t ++ rest) = some (t, rest))
    (info : AuctionInfo Account Currency Balance Time) :
    decodeAuctionInfo decA decC decB decT
        (encodeAuctionInfo encA encC encB encT info) = some (info, []) := by
  have h := decodeAuctionInfo_roundtrip_aux encA decA encC decC encB decB encT decT
    hA hC hB hT info []
  simpa using h

/-- Witness for `auctionInfo_scale_roundtrip` with the concrete one-byte
`Nat` codec on a concrete record. -/
theorem auctionInfo_scale_roundtrip_witness :
    decodeAuctionInfo decNat decNat decNat decNat
      (encodeAuctionInfo encNat encNat encNat encNat
        (⟨some (1, 2, 3), some 4, none, 5, some 6⟩ : AuctionInfo Nat Nat Nat Nat)) =
      some (⟨some (1, 2, 3), some 4, none, 5, some 6⟩, []) :=
  auctionInfo_scale_roundtrip encNat decNat encNat decNat encNat decNat encNat decNat
    (fun _ _ => rfl) (fun _ _ => rfl) (fun _ _ => rfl) (fun _ _ => rfl)
    ⟨some (1, 2, 3), some 4, none, 5, some 6⟩
